import Mathlib

/-!
Shallow embedding of `src/asciifer.py` (the `ImageToASCII` converter).

The Python program loads an RGB image, computes a per-pixel brightness,
partitions the brightness grid into character-cell-sized blocks, averages
each block, quantizes the average to an index into a fixed character
palette, and assembles text lines; it then writes them to a text file,
renders a colored raster image, or prints to stdout depending on the
configured output paths.

Floating point arithmetic of the NumPy pipeline is modelled by exact real
arithmetic; PIL objects (fonts, image decoding/encoding) are modelled by
abstract structures recording exactly the data the program reads from them
(a glyph bounding box for a font, pixel values for an image).
-/

namespace Asciifer

/-- An 8-bit RGB pixel: the image is converted with `.convert("RGB")`
(line 18), so every pixel has exactly three integer channels. -/
structure RGB where
  r : Nat
  g : Nat
  b : Nat

/-- An in-memory image: `width`/`height` as reported by `self.image.size`
(line 54), and `px y x` the pixel at row `y`, column `x` of the
height-by-width pixel array (`np.asarray(self.image)`, line 41). -/
structure Img where
  width : Nat
  height : Nat
  px : Nat → Nat → RGB

/-- An image is valid when every channel of every pixel is an 8-bit value. -/
def Valid (img : Img) : Prop :=
  ∀ y x, (img.px y x).r ≤ 255 ∧ (img.px y x).g ≤ 255 ∧ (img.px y x).b ≤ 255

/-- Per-pixel brightness, `_get_brightness_array` lines 40-44:
`np.sqrt(0.299 * r**2 + 0.587 * g**2 + 0.114 * b**2) / 255.0`,
with the channels read in the 0-255 domain. -/
noncomputable def pixelBrightness (p : RGB) : ℝ :=
  Real.sqrt (0.299 * (p.r : ℝ) ^ 2 + 0.587 * (p.g : ℝ) ^ 2 + 0.114 * (p.b : ℝ) ^ 2) / 255

/-- Entry `[y][x]` of the brightness array returned by
`_get_brightness_array` (line 44). -/
noncomputable def brightnessAt (img : Img) (y x : Nat) : ℝ :=
  pixelBrightness (img.px y x)

/-- The ASCII palette, `_get_charset` line 26 (the `use_braille = False`
branch): a 10-symbol ramp, darkest first. -/
def asciiCharset : List Char := ".,;!vlLFE$".toList

/-- The Braille palette, `_get_charset` line 26 (the `use_braille = True`
branch): a 33-symbol ramp. -/
def brailleCharset : List Char := "⠁⠗⠃⠎⠉⠞⠙⠥⠑⠧⠋⠺⠛⠭⠓⠽⠊⠵⠚⠠⠅⠼⠇⠲⠍⠂⠝⠢⠕⠆⠏⠤⠟".toList

/-- `self.characters = self._get_charset()` (lines 22, 25-26). -/
def getCharset (use_braille : Bool) : List Char :=
  if use_braille then brailleCharset else asciiCharset

/-- A glyph bounding box as returned by PIL `font.getbbox`:
`(x0, y0, x1, y1)` (line 48). -/
structure BBox where
  x0 : Int
  y0 : Int
  x1 : Int
  y1 : Int

/-- A loaded font, modelled by the only query the program makes of it:
`getbbox` of a single glyph. -/
structure Font where
  getbbox : Char → BBox

/-- `_char_cell`, lines 46-51: measure the last palette character
(`self.characters[-1]`) with the font, and take
`char_w = max(1, bbox[2] - bbox[0])`, `char_h = max(1, bbox[3] - bbox[1])`.
Both results are at least 1, so they are returned as naturals. -/
def charCell (font : Font) (characters : List Char) : Nat × Nat :=
  let sample := characters.getLastD ' '
  let bbox := font.getbbox sample
  ((max 1 (bbox.x1 - bbox.x0)).toNat, (max 1 (bbox.y1 - bbox.y0)).toNat)

/-- The environment `_load_font` runs against: `os.path.isfile`,
`ImageFont.truetype` (where `none` models the `OSError` branch), and
`ImageFont.load_default()`. -/
structure FontEnv where
  isfile : String → Bool
  truetype : String → Nat → Option Font
  defaultFont : Font

/-- `_load_font`, lines 28-38: try the truetype font when the path is set
and names an existing file; on any failure (no path, not a file, or
`OSError` from `truetype`) return the built-in default font. -/
def loadFont (env : FontEnv) (font_path : Option String) (font_size : Nat) : Font :=
  match font_path with
  | some p =>
      if env.isfile p then
        match env.truetype p font_size with
        | some f => f
        | none => env.defaultFont
      else env.defaultFont
  | none => env.defaultFont

/-- `h_blocks = height // char_h` (line 58). -/
def hBlocks (img : Img) (char_h : Nat) : Nat := img.height / char_h

/-- `w_blocks = width // char_w` (line 59). -/
def wBlocks (img : Img) (char_w : Nat) : Nat := img.width / char_w

/-- Entry `(r, c)` of `avg_brightness` (lines 61-64): the brightness array
is cut to `[: h_blocks * char_h, : w_blocks * char_w]`, reshaped to
`(h_blocks, char_h, w_blocks, char_w)` and averaged over axes 1 and 3, so
block `(r, c)` is the mean of the `char_h * char_w` pixels of its
footprint. -/
noncomputable def blockAvg (img : Img) (char_w char_h : Nat) (r c : Nat) : ℝ :=
  (∑ i ∈ Finset.range char_h, ∑ j ∈ Finset.range char_w,
      brightnessAt img (r * char_h + i) (c * char_w + j)) /
    ((char_h : ℝ) * (char_w : ℝ))

/-- `.astype(np.int32)` on a float array truncates toward zero. -/
noncomputable def truncToInt (x : ℝ) : Int :=
  if 0 ≤ x then ⌊x⌋ else ⌈x⌉

/-- Entry of `idx` (line 66):
`(avg_brightness * (len(self.characters) - 1)).astype(np.int32)`. -/
noncomputable def quantIdx (avg : ℝ) (n : Nat) : Int :=
  truncToInt (avg * ((n : Nat) - 1 : Int))

/-- Entry of `ascii_chars` (line 67): `np.array(list(self.characters))[idx]`.
NumPy indexing requires the index to be in range; the fallback `' '` of
`getD` is proved unreachable for valid images. -/
noncomputable def blockChar (characters : List Char) (avg : ℝ) : Char :=
  characters.getD (quantIdx avg characters.length).toNat ' '

/-- The character grid underlying `ascii_chars` (lines 53-67): row `r`,
column `c` holds the palette character of block `(r, c)`. -/
noncomputable def asciiGrid (img : Img) (font : Font) (characters : List Char) :
    List (List Char) :=
  let char_w := (charCell font characters).1
  let char_h := (charCell font characters).2
  (List.range (hBlocks img char_h)).map fun r =>
    (List.range (wBlocks img char_w)).map fun c =>
      blockChar characters (blockAvg img char_w char_h r c)

/-- `ascii_lines = ["".join(row) for row in ascii_chars]` (line 69). -/
noncomputable def asciiLines (img : Img) (font : Font) (characters : List Char) :
    List String :=
  (asciiGrid img font characters).map fun row => String.mk row

/-- The newline-joined text `"\n".join(ascii_lines)` (lines 73, 79). -/
noncomputable def asciiText (img : Img) (font : Font) (characters : List Char) : String :=
  String.intercalate "\n" (asciiLines img font characters)

/-- The error raised by `_render_colored_ascii` on an empty grid:
`ascii_lines[0]` (line 82) raises `IndexError`. -/
inductive RenderError where
  | indexError

/-- `_render_colored_ascii`, lines 81-89, modelled down to the computed
sizes: `cols = len(ascii_lines[0])` (an `IndexError` when the grid has no
rows), `rows = len(ascii_lines)`, and the output canvas size
`(char_w * cols, char_h * rows)`; the PIL drawing, resizing and saving that
follow are external effects that consume these sizes. -/
def renderColoredAscii (ascii_lines : List String) (char_w char_h : Nat) :
    Except RenderError (Nat × Nat) :=
  match ascii_lines with
  | [] => Except.error RenderError.indexError
  | line :: rest => Except.ok (char_w * line.length, char_h * (line :: rest).length)

/-- The output-path configuration (constructor arguments
`output_text_path`, `output_image_path`, lines 19-20); `none` models the
argparse default `None` when a flag is omitted. -/
structure Config where
  output_text_path : Option String
  output_image_path : Option String

/-- Python truthiness of an optional path: `None` and `""` are falsy. -/
def truthy : Option String → Bool
  | none => false
  | some s => s != ""

/-- The externally observable effects of one run of
`convert_to_ascii_by_blocks`: the text file written (path and contents),
the result of the colored render when one was requested, and what was
printed to stdout. -/
structure RunResult where
  textFile : Option (String × String)
  imageResult : Option (Except RenderError (Nat × Nat))
  stdout : Option String

/-- `convert_to_ascii_by_blocks`, lines 53-79: build the lines, then
write the text file if `self.output_text_path` is truthy (lines 71-73),
render the colored image if `self.output_image_path` is truthy
(lines 75-76), and print to stdout when neither is truthy (lines 78-79). -/
noncomputable def convertToAsciiByBlocks (img : Img) (font : Font)
    (characters : List Char) (cfg : Config) : RunResult :=
  let char_w := (charCell font characters).1
  let char_h := (charCell font characters).2
  let ascii_lines := asciiLines img font characters
  let text := String.intercalate "\n" ascii_lines
  ⟨if truthy cfg.output_text_path then some (cfg.output_text_path.getD "", text) else none,
   if truthy cfg.output_image_path then
     some (renderColoredAscii ascii_lines char_w char_h)
   else none,
   if !truthy cfg.output_text_path && !truthy cfg.output_image_path then some text
   else none⟩

/-! ### Helper lemmas -/

lemma pixelBrightness_nonneg (p : RGB) : 0 ≤ pixelBrightness p := by
  unfold pixelBrightness
  positivity

lemma pixelBrightness_le_one (p : RGB) (hr : p.r ≤ 255) (hg : p.g ≤ 255)
    (hb : p.b ≤ 255) : pixelBrightness p ≤ 1 := by
  unfold pixelBrightness
  rw [div_le_one (by norm_num)]
  have hr' : (p.r : ℝ) ≤ 255 := by exact_mod_cast hr
  have hg' : (p.g : ℝ) ≤ 255 := by exact_mod_cast hg
  have hb' : (p.b : ℝ) ≤ 255 := by exact_mod_cast hb
  have h0r : (0 : ℝ) ≤ (p.r : ℝ) := Nat.cast_nonneg _
  have h0g : (0 : ℝ) ≤ (p.g : ℝ) := Nat.cast_nonneg _
  have h0b : (0 : ℝ) ≤ (p.b : ℝ) := Nat.cast_nonneg _
  have hsum : 0.299 * (p.r : ℝ) ^ 2 + 0.587 * (p.g : ℝ) ^ 2 + 0.114 * (p.b : ℝ) ^ 2
      ≤ (255 : ℝ) ^ 2 := by nlinarith
  calc Real.sqrt (0.299 * (p.r : ℝ) ^ 2 + 0.587 * (p.g : ℝ) ^ 2 + 0.114 * (p.b : ℝ) ^ 2)
      ≤ Real.sqrt ((255 : ℝ) ^ 2) := Real.sqrt_le_sqrt hsum
    _ = 255 := by rw [Real.sqrt_sq (by norm_num : (0:ℝ) ≤ 255)]

lemma pixelBrightness_gray (v : Nat) : pixelBrightness ⟨v, v, v⟩ = (v : ℝ) / 255 := by
  unfold pixelBrightness
  have h : 0.299 * (v : ℝ) ^ 2 + 0.587 * (v : ℝ) ^ 2 + 0.114 * (v : ℝ) ^ 2
      = (v : ℝ) ^ 2 := by ring_nf
  rw [h, Real.sqrt_sq (Nat.cast_nonneg v)]

lemma blockAvg_nonneg (img : Img) (cw ch r c : Nat) : 0 ≤ blockAvg img cw ch r c := by
  unfold blockAvg
  apply div_nonneg
  · exact Finset.sum_nonneg fun i _ =>
      Finset.sum_nonneg fun j _ => pixelBrightness_nonneg _
  · positivity

lemma blockAvg_le_one (img : Img) (cw ch r c : Nat) (hv : Valid img)
    (hcw : 1 ≤ cw) (hch : 1 ≤ ch) : blockAvg img cw ch r c ≤ 1 := by
  unfold blockAvg
  have hch' : (0 : ℝ) < (ch : ℝ) := by exact_mod_cast hch
  have hcw' : (0 : ℝ) < (cw : ℝ) := by exact_mod_cast hcw
  rw [div_le_one (by positivity)]
  calc (∑ i ∈ Finset.range ch, ∑ j ∈ Finset.range cw,
          brightnessAt img (r * ch + i) (c * cw + j))
      ≤ ∑ i ∈ Finset.range ch, ∑ j ∈ Finset.range cw, (1 : ℝ) := by
        refine Finset.sum_le_sum fun i _ => Finset.sum_le_sum fun j _ => ?_
        exact pixelBrightness_le_one _ (hv _ _).1 (hv _ _).2.1 (hv _ _).2.2
    _ = (ch : ℝ) * (cw : ℝ) := by
        simp [Finset.sum_const, Finset.card_range]

lemma blockAvg_const (img : Img) (p : RGB) (cw ch r c : Nat)
    (hp : ∀ y x, img.px y x = p) (hcw : 1 ≤ cw) (hch : 1 ≤ ch) :
    blockAvg img cw ch r c = pixelBrightness p := by
  unfold blockAvg brightnessAt
  have hch0 : ((ch : ℝ)) ≠ 0 := by positivity
  have hcw0 : ((cw : ℝ)) ≠ 0 := by positivity
  simp only [hp, Finset.sum_const, Finset.card_range, nsmul_eq_mul]
  field_simp
  ring

lemma quantIdx_eq_floor (avg : ℝ) (n : Nat) (h0 : 0 ≤ avg) (hn : 1 ≤ n) :
    quantIdx avg n = ⌊avg * ((n : ℝ) - 1)⌋ := by
  unfold quantIdx truncToInt
  have hcast : ((((n : Nat) : Int) - 1 : Int) : ℝ) = (n : ℝ) - 1 := by push_cast; ring
  rw [hcast, if_pos]
  have h1 : (0 : ℝ) ≤ (n : ℝ) - 1 := by
    have : (1 : ℝ) ≤ (n : ℝ) := by exact_mod_cast hn
    linarith
  exact mul_nonneg h0 h1

lemma quantIdx_nonneg (avg : ℝ) (n : Nat) (h0 : 0 ≤ avg) (hn : 1 ≤ n) :
    0 ≤ quantIdx avg n := by
  rw [quantIdx_eq_floor avg n h0 hn]
  have h1 : (0 : ℝ) ≤ (n : ℝ) - 1 := by
    have : (1 : ℝ) ≤ (n : ℝ) := by exact_mod_cast hn
    linarith
  exact Int.floor_nonneg.mpr (mul_nonneg h0 h1)

lemma quantIdx_le_sub_one (avg : ℝ) (n : Nat) (h0 : 0 ≤ avg) (h1 : avg ≤ 1)
    (hn : 1 ≤ n) : quantIdx avg n ≤ (n : Int) - 1 := by
  rw [quantIdx_eq_floor avg n h0 hn]
  have hn1 : (0 : ℝ) ≤ (n : ℝ) - 1 := by
    have : (1 : ℝ) ≤ (n : ℝ) := by exact_mod_cast hn
    linarith
  have hle : avg * ((n : ℝ) - 1) ≤ (n : ℝ) - 1 := mul_le_of_le_one_left hn1 h1
  calc ⌊avg * ((n : ℝ) - 1)⌋ ≤ ⌊(n : ℝ) - 1⌋ := Int.floor_le_floor hle
    _ = (n : Int) - 1 := by
        rw [show ((n : ℝ) - 1) = (((n : Int) - 1 : Int) : ℝ) by push_cast; ring]
        exact Int.floor_intCast _

lemma blockChar_mem (characters : List Char) (avg : ℝ) (hne : characters ≠ [])
    (h0 : 0 ≤ avg) (h1 : avg ≤ 1) : blockChar characters avg ∈ characters := by
  unfold blockChar
  have hn : 1 ≤ characters.length := List.length_pos.mpr hne
  have hle := quantIdx_le_sub_one avg characters.length h0 h1 hn
  have hlt : (quantIdx avg characters.length).toNat < characters.length := by omega
  rw [List.getD_eq_getElem _ _ hlt]
  exact List.getElem_mem _

lemma charCell_fst_pos (font : Font) (characters : List Char) :
    1 ≤ (charCell font characters).1 := by
  unfold charCell
  simp only
  omega

lemma charCell_snd_pos (font : Font) (characters : List Char) :
    1 ≤ (charCell font characters).2 := by
  unfold charCell
  simp only
  omega

lemma grid_char_mem (img : Img) (font : Font) (characters : List Char)
    (hv : Valid img) (hne : characters ≠ []) :
    ∀ row ∈ asciiGrid img font characters, ∀ c ∈ row, c ∈ characters := by
  intro row hrow c hc
  simp only [asciiGrid, List.mem_map, List.mem_range] at hrow
  obtain ⟨r, _, rfl⟩ := hrow
  simp only [List.mem_map, List.mem_range] at hc
  obtain ⟨q, _, rfl⟩ := hc
  exact blockChar_mem characters _ hne (blockAvg_nonneg _ _ _ _ _)
    (blockAvg_le_one _ _ _ _ _ hv (charCell_fst_pos font characters)
      (charCell_snd_pos font characters))

/-! ### Concrete fixtures used by witnesses and counterexamples -/

/-- A font whose every glyph has bounding box `(0, 0, 2, 2)`, giving a
2-by-2 character cell. -/
def font22 : Font := ⟨fun _ => ⟨0, 0, 2, 2⟩⟩

/-- A 4-by-4 solid black test image. -/
def black4 : Img := ⟨4, 4, fun _ _ => ⟨0, 0, 0⟩⟩

/-- An environment with no loadable fonts: nothing is a file and every
truetype load fails. -/
def bareFontEnv : FontEnv := ⟨fun _ => false, fun _ _ => none, ⟨fun _ => ⟨0, 0, 1, 1⟩⟩⟩

/-! ### Claim theorems -/

/-- C1: for every block average brightness in `[0, 1]` and palette of
length `N`, the quantizer computes `floor(avg * (N - 1))`, that index lies
in `[0, N - 1]`, and consequently every character of the output grid is a
member of the configured palette. -/
theorem quantIdx_floor_in_range_and_grid_chars_in_palette
    (img : Img) (font : Font) (characters : List Char)
    (hv : Valid img) (hne : characters ≠ []) :
    (∀ avg : ℝ, 0 ≤ avg → avg ≤ 1 →
        quantIdx avg characters.length = ⌊avg * ((characters.length : ℝ) - 1)⌋ ∧
        0 ≤ quantIdx avg characters.length ∧
        quantIdx avg characters.length ≤ (characters.length : Int) - 1) ∧
    ∀ row ∈ asciiGrid img font characters, ∀ c ∈ row, c ∈ characters := by
  have hn : 1 ≤ characters.length := List.length_pos.mpr hne
  exact ⟨fun avg h0 h1 =>
      ⟨quantIdx_eq_floor avg _ h0 hn, quantIdx_nonneg avg _ h0 hn,
        quantIdx_le_sub_one avg _ h0 h1 hn⟩,
    grid_char_mem img font characters hv hne⟩

/-- Witness for C1: the black 4-by-4 image with the ASCII palette. -/
theorem quantIdx_floor_in_range_and_grid_chars_in_palette_witness :
    (∀ avg : ℝ, 0 ≤ avg → avg ≤ 1 →
        quantIdx avg asciiCharset.length = ⌊avg * ((asciiCharset.length : ℝ) - 1)⌋ ∧
        0 ≤ quantIdx avg asciiCharset.length ∧
        quantIdx avg asciiCharset.length ≤ (asciiCharset.length : Int) - 1) ∧
    ∀ row ∈ asciiGrid black4 font22 asciiCharset, ∀ c ∈ row, c ∈ asciiCharset :=
  quantIdx_floor_in_range_and_grid_chars_in_palette black4 font22 asciiCharset
    (fun _ _ => ⟨Nat.zero_le 255, Nat.zero_le 255, Nat.zero_le 255⟩) (by decide)

/-- C2: per-pixel brightness is exactly
`sqrt(0.299*R^2 + 0.587*G^2 + 0.114*B^2) / 255` (squares under the root),
and for 8-bit channels the value lies in `[0, 1]`. -/
theorem pixelBrightness_formula_and_range (p : RGB)
    (hr : p.r ≤ 255) (hg : p.g ≤ 255) (hb : p.b ≤ 255) :
    pixelBrightness p =
      Real.sqrt (0.299 * (p.r : ℝ) ^ 2 + 0.587 * (p.g : ℝ) ^ 2 +
        0.114 * (p.b : ℝ) ^ 2) / 255 ∧
    0 ≤ pixelBrightness p ∧ pixelBrightness p ≤ 1 :=
  ⟨rfl, pixelBrightness_nonneg p, pixelBrightness_le_one p hr hg hb⟩

/-- Witness for C2: the mid-gray pixel `(128, 128, 128)`. -/
theorem pixelBrightness_formula_and_range_witness :
    pixelBrightness ⟨128, 128, 128⟩ =
      Real.sqrt (0.299 * ((128 : Nat) : ℝ) ^ 2 + 0.587 * ((128 : Nat) : ℝ) ^ 2 +
        0.114 * ((128 : Nat) : ℝ) ^ 2) / 255 ∧
    0 ≤ pixelBrightness ⟨128, 128, 128⟩ ∧ pixelBrightness ⟨128, 128, 128⟩ ≤ 1 :=
  pixelBrightness_formula_and_range ⟨128, 128, 128⟩ (by decide) (by decide) (by decide)

/-- C5: quantization is monotone non-decreasing in the average brightness:
for `0 ≤ a ≤ b ≤ 1` and a palette of length at least 1, the index of `a`
is at most the index of `b`. -/
theorem quantIdx_monotone (a b : ℝ) (n : Nat)
    (h0 : 0 ≤ a) (hab : a ≤ b) (_hb1 : b ≤ 1) (hn : 1 ≤ n) :
    quantIdx a n ≤ quantIdx b n := by
  have h0b : 0 ≤ b := le_trans h0 hab
  rw [quantIdx_eq_floor a n h0 hn, quantIdx_eq_floor b n h0b hn]
  apply Int.floor_le_floor
  have hn1 : (0 : ℝ) ≤ (n : ℝ) - 1 := by
    have : (1 : ℝ) ≤ (n : ℝ) := by exact_mod_cast hn
    linarith
  exact mul_le_mul_of_nonneg_right hab hn1

/-- Witness for C5: averages `1/4 ≤ 1/2` with the 10-character palette. -/
theorem quantIdx_monotone_witness :
    quantIdx (1 / 4) 10 ≤ quantIdx (1 / 2) 10 :=
  quantIdx_monotone (1 / 4) (1 / 2) 10 (by norm_num) (by norm_num) (by norm_num)
    (by norm_num)

/-- C7: `_load_font` returns the built-in default font whenever the path
is `None`, does not name an existing file, or names a file the truetype
loader cannot open; being a total function, it raises no exception. -/
theorem loadFont_falls_back_to_default (env : FontEnv)
    (font_path : Option String) (font_size : Nat) :
    (font_path = none → loadFont env font_path font_size = env.defaultFont) ∧
    (∀ p, font_path = some p → env.isfile p = false →
        loadFont env font_path font_size = env.defaultFont) ∧
    (∀ p, font_path = some p → env.truetype p font_size = none →
        loadFont env font_path font_size = env.defaultFont) := by
  refine ⟨fun h => by rw [h]; rfl, fun p hp hfile => ?_, fun p hp hload => ?_⟩
  · rw [hp]; simp [loadFont, hfile]
  · rw [hp]; by_cases hf : env.isfile p <;> simp [loadFont, hf, hload]

/-- Witness for C7: an environment where nothing can be loaded, with the
path absent and with a path that is not a file. -/
theorem loadFont_falls_back_to_default_witness :
    loadFont bareFontEnv none 6 = bareFontEnv.defaultFont ∧
    loadFont bareFontEnv (some "missing.ttf") 6 = bareFontEnv.defaultFont :=
  ⟨(loadFont_falls_back_to_default bareFontEnv none 6).1 rfl,
   (loadFont_falls_back_to_default bareFontEnv (some "missing.ttf") 6).2.1
     "missing.ttf" rfl rfl⟩

/-- C8: the character cell is measured from the last palette character:
its components are the bounding-box width and height of that glyph, each
raised to a minimum of 1, so both are always at least 1. -/
theorem charCell_from_last_glyph_and_pos (font : Font) (characters : List Char)
    (hne : characters ≠ []) :
    charCell font characters =
      ((max 1 ((font.getbbox (characters.getLast hne)).x1 -
          (font.getbbox (characters.getLast hne)).x0)).toNat,
       (max 1 ((font.getbbox (characters.getLast hne)).y1 -
          (font.getbbox (characters.getLast hne)).y0)).toNat) ∧
    1 ≤ (charCell font characters).1 ∧ 1 ≤ (charCell font characters).2 := by
  refine ⟨?_, charCell_fst_pos font characters, charCell_snd_pos font characters⟩
  unfold charCell
  rw [List.getLastD_eq_getLast?, List.getLast?_eq_getLast _ hne]
  rfl

/-- Witness for C8: the 2-by-2 font with the ASCII palette. -/
theorem charCell_from_last_glyph_and_pos_witness :
    charCell font22 asciiCharset = (2, 2) ∧
    1 ≤ (charCell font22 asciiCharset).1 ∧ 1 ≤ (charCell font22 asciiCharset).2 := by
  have h := charCell_from_last_glyph_and_pos font22 asciiCharset (by decide)
  exact ⟨by decide, h.2.1, h.2.2⟩

lemma truthy_none : truthy none = false := rfl

lemma truthy_some_of_ne (s : String) (h : s ≠ "") : truthy (some s) = true := by
  simp [truthy, bne_iff_ne, h]

/-- A 4-by-4 image, black on the first four pixel rows and white below:
it agrees with `black4` on every pixel the converter keeps. -/
def black4edge : Img := ⟨4, 4, fun y _ => if y < 4 then ⟨0, 0, 0⟩ else ⟨255, 255, 255⟩⟩

/-- The same pixels as `black4`, written with a different (but pointwise
equal) pixel function. -/
def black4b : Img := ⟨4, 4, fun y x => ⟨0 * (y + x), 0, 0⟩⟩

/-- C3: with character cell `(cw, ch)`, the grid has `height / ch` lines
of `width / cw` characters each; each block average is the arithmetic mean
of exactly the `cw * ch` pixels of its footprint; and the grid depends
only on the kept pixels — any image agreeing on rows below
`(height / ch) * ch` and columns below `(width / cw) * cw` yields the same
grid (truncation: the remainder pixels are dropped). -/
theorem grid_dims_block_mean_and_truncation
    (img img2 : Img) (font : Font) (characters : List Char) (cw ch : Nat)
    (hcw : cw = (charCell font characters).1)
    (hch : ch = (charCell font characters).2) :
    (asciiLines img font characters).length = img.height / ch ∧
    (∀ line ∈ asciiLines img font characters, line.length = img.width / cw) ∧
    (∀ r c, blockAvg img cw ch r c =
        (∑ i ∈ Finset.range ch, ∑ j ∈ Finset.range cw,
            pixelBrightness (img.px (r * ch + i) (c * cw + j))) /
          ((ch : ℝ) * (cw : ℝ))) ∧
    (img2.width = img.width → img2.height = img.height →
      (∀ y x, y < (img.height / ch) * ch → x < (img.width / cw) * cw →
          img2.px y x = img.px y x) →
      asciiGrid img2 font characters = asciiGrid img font characters) := by
  subst hcw hch
  have grid_eq : ∀ im : Img, asciiGrid im font characters =
      (List.range (im.height / (charCell font characters).2)).map fun r =>
        (List.range (im.width / (charCell font characters).1)).map fun c =>
          blockChar characters
            (blockAvg im (charCell font characters).1 (charCell font characters).2 r c) :=
    fun im => rfl
  refine ⟨?_, ?_, fun r c => rfl, ?_⟩
  · simp [asciiLines, grid_eq, hBlocks]
  · intro line hline
    simp only [asciiLines, grid_eq, List.mem_map, List.mem_range] at hline
    obtain ⟨row, ⟨r, _, rfl⟩, rfl⟩ := hline
    simp
  · intro hw hh hpx
    rw [grid_eq, grid_eq, hh, hw]
    apply List.map_congr_left
    intro r hr
    apply List.map_congr_left
    intro c hc
    simp only [List.mem_range] at hr hc
    have havg : blockAvg img2 (charCell font characters).1 (charCell font characters).2 r c =
        blockAvg img (charCell font characters).1 (charCell font characters).2 r c := by
      unfold blockAvg brightnessAt
      congr 1
      refine Finset.sum_congr rfl fun i hi => Finset.sum_congr rfl fun j hj => ?_
      simp only [Finset.mem_range] at hi hj
      have hy : r * (charCell font characters).2 + i <
          (img.height / (charCell font characters).2) * (charCell font characters).2 := by
        calc r * (charCell font characters).2 + i
            < (r + 1) * (charCell font characters).2 := by
              rw [Nat.succ_mul]; exact Nat.add_lt_add_left hi _
          _ ≤ (img.height / (charCell font characters).2) * (charCell font characters).2 :=
              Nat.mul_le_mul hr (Nat.le_refl _)
      have hx : c * (charCell font characters).1 + j <
          (img.width / (charCell font characters).1) * (charCell font characters).1 := by
        calc c * (charCell font characters).1 + j
            < (c + 1) * (charCell font characters).1 := by
              rw [Nat.succ_mul]; exact Nat.add_lt_add_left hj _
          _ ≤ (img.width / (charCell font characters).1) * (charCell font characters).1 :=
              Nat.mul_le_mul hc (Nat.le_refl _)
      rw [hpx _ _ hy hx]
    rw [havg]

/-- Witness for C3: `black4` with the 2-by-2 font, and `black4edge` which
differs from it only on dropped pixels. -/
theorem grid_dims_block_mean_and_truncation_witness :
    (asciiLines black4 font22 asciiCharset).length = black4.height / 2 ∧
    asciiGrid black4edge font22 asciiCharset = asciiGrid black4 font22 asciiCharset := by
  have h := grid_dims_block_mean_and_truncation black4 black4edge font22 asciiCharset
    2 2 (by decide) (by decide)
  refine ⟨h.1, h.2.2.2 rfl rfl fun y x hy _ => ?_⟩
  have hy4 : y < 4 := hy
  simp [black4edge, black4, hy4]

/-- C6: the text grid goes to stdout exactly when neither output path is
configured; a configured text path receives the newline-joined lines; and
an omitted image path produces no image. -/
theorem output_dispatch (img : Img) (font : Font) (characters : List Char)
    (cfg : Config)
    (ht : ∀ s, cfg.output_text_path = some s → s ≠ "")
    (hi : ∀ s, cfg.output_image_path = some s → s ≠ "") :
    ((convertToAsciiByBlocks img font characters cfg).stdout =
        some (asciiText img font characters) ↔
      cfg.output_text_path = none ∧ cfg.output_image_path = none) ∧
    (∀ p, cfg.output_text_path = some p →
      (convertToAsciiByBlocks img font characters cfg).textFile =
        some (p, asciiText img font characters)) ∧
    (cfg.output_image_path = none →
      (convertToAsciiByBlocks img font characters cfg).imageResult = none) := by
  obtain ⟨t, i⟩ := cfg
  refine ⟨?_, ?_, ?_⟩
  · cases t with
    | none =>
      cases i with
      | none => simp [convertToAsciiByBlocks, truthy_none, asciiText]
      | some s =>
        have hs := truthy_some_of_ne s (hi s rfl)
        simp [convertToAsciiByBlocks, truthy_none, hs]
    | some s =>
      have hs := truthy_some_of_ne s (ht s rfl)
      cases i with
      | none => simp [convertToAsciiByBlocks, truthy_none, hs]
      | some s2 =>
        have hs2 := truthy_some_of_ne s2 (hi s2 rfl)
        simp [convertToAsciiByBlocks, hs, hs2]
  · intro p hp
    cases t with
    | none => cases hp
    | some s =>
      cases hp
      have hs := truthy_some_of_ne p (ht p rfl)
      simp [convertToAsciiByBlocks, hs, asciiText]
  · intro h
    cases i with
    | some s => cases h
    | none => simp [convertToAsciiByBlocks, truthy_none]

/-- Witness for C6: a run with no output paths prints to stdout, and a
run with only a text path writes that file and produces no image. -/
theorem output_dispatch_witness :
    ((convertToAsciiByBlocks black4 font22 asciiCharset ⟨none, none⟩).stdout =
        some (asciiText black4 font22 asciiCharset) ↔
      (none : Option String) = none ∧ (none : Option String) = none) ∧
    ((convertToAsciiByBlocks black4 font22 asciiCharset
        ⟨some "out.txt", none⟩).textFile =
      some ("out.txt", asciiText black4 font22 asciiCharset)) ∧
    ((convertToAsciiByBlocks black4 font22 asciiCharset
        ⟨some "out.txt", none⟩).imageResult = none) := by
  have h1 := output_dispatch black4 font22 asciiCharset ⟨none, none⟩
    (fun s hs => by cases hs) (fun s hs => by cases hs)
  have h2 := output_dispatch black4 font22 asciiCharset ⟨some "out.txt", none⟩
    (fun s hs => by cases hs; decide) (fun s hs => by cases hs)
  exact ⟨h1.1, h2.2.1 "out.txt" rfl, h2.2.2 rfl⟩

/-- C9: the conversion is deterministic — it is a pure function of the
image pixels and the configuration, so two runs on the same input with
the same flags produce identical results (text output included). -/
theorem convert_deterministic (img1 img2 : Img) (font : Font)
    (characters : List Char) (cfg : Config)
    (hw : img1.width = img2.width) (hh : img1.height = img2.height)
    (hpx : ∀ y x, img1.px y x = img2.px y x) :
    convertToAsciiByBlocks img1 font characters cfg =
      convertToAsciiByBlocks img2 font characters cfg := by
  have himg : img1 = img2 := by
    obtain ⟨w1, h1, p1⟩ := img1
    obtain ⟨w2, h2, p2⟩ := img2
    simp only [Img.mk.injEq]
    exact ⟨hw, hh, funext fun y => funext fun x => hpx y x⟩
  rw [himg]

/-- Witness for C9: two syntactically different descriptions of the same
black image convert identically. -/
theorem convert_deterministic_witness :
    convertToAsciiByBlocks black4 font22 asciiCharset ⟨none, none⟩ =
      convertToAsciiByBlocks black4b font22 asciiCharset ⟨none, none⟩ :=
  convert_deterministic black4 black4b font22 asciiCharset ⟨none, none⟩ rfl rfl
    (fun y x => by simp [black4, black4b])

lemma grid_const_char (img : Img) (font : Font) (characters : List Char) (p : RGB)
    (hp : ∀ y x, img.px y x = p) :
    ∀ row ∈ asciiGrid img font characters, ∀ c ∈ row,
      c = blockChar characters (pixelBrightness p) := by
  intro row hrow c hc
  simp only [asciiGrid, List.mem_map, List.mem_range] at hrow
  obtain ⟨r, _, rfl⟩ := hrow
  simp only [List.mem_map, List.mem_range] at hc
  obtain ⟨q, _, rfl⟩ := hc
  rw [blockAvg_const img p _ _ r q hp (charCell_fst_pos font characters)
    (charCell_snd_pos font characters)]

lemma blockChar_zero (characters : List Char) :
    blockChar characters 0 = characters.getD 0 ' ' := by
  simp [blockChar, quantIdx, truncToInt]

lemma blockChar_one (characters : List Char) (hne : characters ≠ []) :
    blockChar characters 1 = characters.getD (characters.length - 1) ' ' := by
  unfold blockChar
  have hn : 1 ≤ characters.length := List.length_pos.mpr hne
  rw [quantIdx_eq_floor 1 _ (by norm_num) hn, one_mul,
    show ((characters.length : ℝ) - 1) =
      (((characters.length : Int) - 1 : Int) : ℝ) by push_cast; ring,
    Int.floor_intCast]
  congr 1
  omega

lemma quantIdx_gray128 : quantIdx ((128 : ℝ) / 255) 10 = 4 := by
  rw [quantIdx_eq_floor _ _ (by norm_num) (by norm_num), Int.floor_eq_iff]
  norm_num

/-- A 4-by-4 solid white test image. -/
def white4 : Img := ⟨4, 4, fun _ _ => ⟨255, 255, 255⟩⟩

/-- The 100-by-100 solid mid-gray image of the end-to-end scenario. -/
def gray100 : Img := ⟨100, 100, fun _ _ => ⟨128, 128, 128⟩⟩

/-- C4: a solid black image has brightness 0 everywhere, so every block
gets the palette character at index 0; a solid white image has brightness
1 everywhere, so every block gets the character at index `N - 1`; and the
100-by-100 mid-gray image with the 10-character ASCII palette quantizes
every block to index 4, the character `'v'`, for every font. -/
theorem solid_black_white_and_gray_grids
    (imgB imgW : Img) (font : Font) (characters : List Char)
    (hne : characters ≠ [])
    (hB : ∀ y x, imgB.px y x = ⟨0, 0, 0⟩)
    (hW : ∀ y x, imgW.px y x = ⟨255, 255, 255⟩) :
    pixelBrightness ⟨0, 0, 0⟩ = 0 ∧
    (∀ row ∈ asciiGrid imgB font characters, ∀ c ∈ row, c = characters.getD 0 ' ') ∧
    pixelBrightness ⟨255, 255, 255⟩ = 1 ∧
    (∀ row ∈ asciiGrid imgW font characters, ∀ c ∈ row,
        c = characters.getD (characters.length - 1) ' ') ∧
    quantIdx (pixelBrightness ⟨128, 128, 128⟩) 10 = 4 ∧
    (∀ row ∈ asciiGrid gray100 font asciiCharset, ∀ c ∈ row, c = 'v') := by
  have hb0 : pixelBrightness ⟨0, 0, 0⟩ = 0 := by
    rw [pixelBrightness_gray 0]
    norm_num
  have hb1 : pixelBrightness ⟨255, 255, 255⟩ = 1 := by
    rw [pixelBrightness_gray 255]
    norm_num
  have hbg : pixelBrightness ⟨128, 128, 128⟩ = (128 : ℝ) / 255 := by
    rw [pixelBrightness_gray 128]
    norm_num
  refine ⟨hb0, ?_, hb1, ?_, ?_, ?_⟩
  · intro row hrow c hc
    rw [grid_const_char imgB font characters _ hB row hrow c hc, hb0,
      blockChar_zero]
  · intro row hrow c hc
    rw [grid_const_char imgW font characters _ hW row hrow c hc, hb1,
      blockChar_one characters hne]
  · rw [hbg]
    exact quantIdx_gray128
  · intro row hrow c hc
    rw [grid_const_char gray100 font asciiCharset ⟨128, 128, 128⟩
      (fun _ _ => rfl) row hrow c hc, hbg]
    unfold blockChar
    rw [show asciiCharset.length = 10 by decide, quantIdx_gray128]
    decide

/-- Witness for C4: the concrete black and white 4-by-4 images with the
2-by-2 font and the ASCII palette. -/
theorem solid_black_white_and_gray_grids_witness :
    pixelBrightness ⟨0, 0, 0⟩ = 0 ∧
    (∀ row ∈ asciiGrid black4 font22 asciiCharset, ∀ c ∈ row,
        c = asciiCharset.getD 0 ' ') ∧
    pixelBrightness ⟨255, 255, 255⟩ = 1 ∧
    (∀ row ∈ asciiGrid white4 font22 asciiCharset, ∀ c ∈ row,
        c = asciiCharset.getD (asciiCharset.length - 1) ' ') ∧
    quantIdx (pixelBrightness ⟨128, 128, 128⟩) 10 = 4 ∧
    (∀ row ∈ asciiGrid gray100 font22 asciiCharset, ∀ c ∈ row, c = 'v') :=
  solid_black_white_and_gray_grids black4 white4 font22 asciiCharset
    (by decide) (fun _ _ => rfl) (fun _ _ => rfl)

/-- A 1-pixel-wide, 4-pixel-tall black image: narrower than one 2-by-2
character cell but two cells tall. -/
def thin14 : Img := ⟨1, 4, fun _ _ => ⟨0, 0, 0⟩⟩

/-- A 4-pixel-wide, 1-pixel-tall black image: shorter than one 2-by-2
character cell. -/
def flat41 : Img := ⟨4, 1, fun _ _ => ⟨0, 0, 0⟩⟩

/-- Counterexample to C10 as stated: for an image narrower than one
character cell (but at least one cell tall) the text output is a string
of newlines, not the empty string. -/
theorem small_image_text_counterexample :
    thin14.width < (charCell font22 asciiCharset).1 ∧
    asciiText thin14 font22 asciiCharset = "\n" ∧
    asciiText thin14 font22 asciiCharset ≠ "" := by
  refine ⟨by decide, ?_, ?_⟩ <;> decide

/-- C10 (amended): if the image is shorter than one character cell the
grid has zero rows, the text output is the empty string, and a configured
image output hits the `IndexError` of reading the first line of the empty
grid; if the image is narrower than one character cell every line of the
grid is the empty string (so the text output is newlines only). -/
theorem small_image_empty_dimension (img : Img) (font : Font)
    (characters : List Char) (cfg : Config) (cw ch : Nat)
    (hcw : cw = (charCell font characters).1)
    (hch : ch = (charCell font characters).2) :
    (img.height < ch →
      asciiLines img font characters = [] ∧
      asciiText img font characters = "" ∧
      renderColoredAscii (asciiLines img font characters) cw ch =
        Except.error RenderError.indexError ∧
      (truthy cfg.output_image_path = true →
        (convertToAsciiByBlocks img font characters cfg).imageResult =
          some (Except.error RenderError.indexError))) ∧
    (img.width < cw → ∀ line ∈ asciiLines img font characters, line = "") := by
  subst hcw hch
  constructor
  · intro hh
    have hzero : hBlocks img (charCell font characters).2 = 0 := Nat.div_eq_of_lt hh
    have hlines : asciiLines img font characters = [] := by
      simp [asciiLines, asciiGrid, hzero]
    refine ⟨hlines, ?_, ?_, ?_⟩
    · rw [asciiText, hlines]
      rfl
    · rw [hlines]
      rfl
    · intro htr
      simp [convertToAsciiByBlocks, htr, hlines, renderColoredAscii]
  · intro hw line hline
    have hzero : wBlocks img (charCell font characters).1 = 0 := Nat.div_eq_of_lt hw
    simp only [asciiLines, asciiGrid, hzero, List.mem_map, List.mem_range] at hline
    obtain ⟨row, ⟨r, _, rfl⟩, rfl⟩ := hline
    simp

/-- Witness for the amended C10: the flat image (height 1) gives zero
rows, the empty text and the `IndexError` render; the thin image (width 1)
gives empty lines. -/
theorem small_image_empty_dimension_witness :
    asciiLines flat41 font22 asciiCharset = [] ∧
    asciiText flat41 font22 asciiCharset = "" ∧
    (convertToAsciiByBlocks flat41 font22 asciiCharset
        ⟨none, some "out.png"⟩).imageResult =
      some (Except.error RenderError.indexError) ∧
    ∀ line ∈ asciiLines thin14 font22 asciiCharset, line = "" := by
  have h1 := small_image_empty_dimension flat41 font22 asciiCharset
    ⟨none, some "out.png"⟩ 2 2 (by decide) (by decide)
  have h2 := small_image_empty_dimension thin14 font22 asciiCharset
    ⟨none, none⟩ 2 2 (by decide) (by decide)
  have ha := h1.1 (by decide)
  exact ⟨ha.1, ha.2.1, ha.2.2.2 (by decide), h2.2 (by decide)⟩

end Asciifer
